import Mathlib

/-!
Verification of the SerialManager extraction-to-registry pipeline.

The JavaScript sources embedded here:
  * `src/server/ocr.js`   — candidate extraction (`extractSerials` tail, lines 44-56)
  * `src/server/db.js`    — the backend-agnostic store (`run`, lines 90-115)
  * `src/server/index.js` — the HTTP handlers: `/api/extract`, `/api/serials`,
    `/api/export`, `/api/import`, `/api/serials/batch`, `/api/serials/:serial`,
    `/api/reset`.

JavaScript strings are modelled as `List Char` (`Str`).  All definitions are
structural (fuel where the source loops over a shrinking string), so concrete
instances evaluate with `decide` / `rfl`.
-/

namespace SerialManager

/-- JavaScript strings, modelled as lists of characters. -/
abbrev Str := List Char

/-! ## Character classes (the regex classes used by `ocr.js`)

`[A-Z]`, `[0-9]`, `\s` and `\w` are code-point ranges; we model the ASCII
whitespace subset of JavaScript's `\s` (space, tab, LF, VT, FF, CR), which is
all that OCR text and the claims involve. -/

/-- The regex class `[A-Z]`. -/
def isUpperAZ (c : Char) : Bool := decide (65 ≤ c.toNat ∧ c.toNat ≤ 90)

/-- The regex class `[0-9]` / `\d`. -/
def isDigit09 (c : Char) : Bool := decide (48 ≤ c.toNat ∧ c.toNat ≤ 57)

/-- The regex class `[a-z]`. -/
def isLowerAZ (c : Char) : Bool := decide (97 ≤ c.toNat ∧ c.toNat ≤ 122)

/-- The regex class `\s` (ASCII subset: space, tab, LF, VT, FF, CR). -/
def isWsJS (c : Char) : Bool := decide (c.toNat = 32 ∨ (9 ≤ c.toNat ∧ c.toNat ≤ 13))

/-- The regex word-character class `\w` = `[A-Za-z0-9_]` (95 is `_`), used by
`\b`. -/
def isWordChar (c : Char) : Bool :=
  isUpperAZ c || isLowerAZ c || isDigit09 c || decide (c.toNat = 95)

/-- Characters kept by `text.replace(/[^A-Z0-9\s]/g, '')` in `ocr.js` line 49. -/
def keepChar (c : Char) : Bool := isUpperAZ c || isDigit09 c || isWsJS c

/-- ASCII `String.prototype.toUpperCase` on one character. -/
def toUpperCh (c : Char) : Char :=
  if isLowerAZ c then Char.ofNat (c.toNat - 32) else c

/-- ASCII `String.prototype.toLowerCase` on one character. -/
def toLowerCh (c : Char) : Char :=
  if isUpperAZ c then Char.ofNat (c.toNat + 32) else c

/-- `ocr.js` line 49: `text.replace(/[^A-Z0-9\s]/g, '').toUpperCase()`.
The replacement happens before uppercasing, so lowercase letters are removed. -/
def cleanText (t : Str) : Str := (t.filter keepChar).map toUpperCh

/-! ## The serial grammar `\b[A-Z]{2}\d{8}[A-Z]\b` (`ocr.js` line 46) -/

/-- An 11-character token matching `[A-Z]{2}\d{8}[A-Z]`: two uppercase letters
(positions 0-1), eight digits (positions 2-9), one uppercase letter
(position 10). -/
def patTok (s : Str) : Bool :=
  decide (s.length = 11) &&
  isUpperAZ (s.getD 0 ' ') && isUpperAZ (s.getD 1 ' ') &&
  isDigit09 (s.getD 2 ' ') && isDigit09 (s.getD 3 ' ') &&
  isDigit09 (s.getD 4 ' ') && isDigit09 (s.getD 5 ' ') &&
  isDigit09 (s.getD 6 ' ') && isDigit09 (s.getD 7 ' ') &&
  isDigit09 (s.getD 8 ' ') && isDigit09 (s.getD 9 ' ') &&
  isUpperAZ (s.getD 10 ' ')

/-- The trailing `\b` of the pattern: end of input or a non-word character. -/
def boundaryOk : Str → Bool
  | [] => true
  | c :: _ => !isWordChar c

/-- One attempt of the regex engine at the current position: the 11 pattern
characters followed by a word boundary.  (The leading `\b` is checked by the
scanner's boundary state.)  Returns the match and the rest of the input. -/
def takePat (s : Str) : Option (Str × Str) :=
  if patTok (s.take 11) && boundaryOk (s.drop 11) then some (s.take 11, s.drop 11)
  else none

/-- The global regex scan `cleanText.match(strictRegex)`: left-to-right,
non-overlapping; `atB` records whether the previous character admits a leading
word boundary (start of input or a non-word character).  `fuel` bounds the
recursion; any `fuel ≥ s.length` gives the scan's value. -/
def scanAux : Nat → Bool → Str → List Str
  | 0, _, _ => []
  | _ + 1, _, [] => []
  | fuel + 1, atB, c :: cs =>
    if atB then
      match takePat (c :: cs) with
      | some (m, rest) => m :: scanAux fuel false rest
      | none => scanAux fuel (!isWordChar c) cs
    else
      scanAux fuel (!isWordChar c) cs

/-- All matches of `/\b[A-Z]{2}\d{8}[A-Z]\b/g` in `s`. -/
def scanMatches (s : Str) : List Str := scanAux s.length true s

/-- `[...new Set(matches)]` keeps the first occurrence of each element,
in order. -/
def dedupeAux (seen : List Str) : List Str → List Str
  | [] => []
  | x :: xs => if x ∈ seen then dedupeAux seen xs else x :: dedupeAux (x :: seen) xs

/-- JavaScript `[...new Set(xs)]`. -/
def dedupeFirst (xs : List Str) : List Str := dedupeAux [] xs

/-- `ocr.js` lines 44-56 applied to recognized text: clean, match the strict
pattern globally, deduplicate within the single input. -/
def extractSerials (text : Str) : List Str :=
  dedupeFirst (scanMatches (cleanText text))

/-! ## Reference extractors

`refExtract` follows the specification's words for claim C4 ("strip every
character outside the alphanumeric range, uppercase the remainder, then match
the grammar as a maximal, non-overlapping, word-bounded token"); it is the
spec-side definition to be compared with `extractSerials` above.

`wordTokens` is the corrected characterization: on cleaned text (uppercase,
digits and whitespace only) the word-bounded matches are exactly the
whitespace-delimited maximal runs that match the grammar. -/

/-- A character in the alphanumeric range (letters of either case or digits). -/
def isAlphanum (c : Char) : Bool := isUpperAZ c || isLowerAZ c || isDigit09 c

/-- Spec C4 reference algorithm: strip every character outside the alphanumeric
range, uppercase the remainder, then scan for word-bounded grammar tokens and
deduplicate. -/
def refExtract (text : Str) : List Str :=
  dedupeFirst (scanMatches ((text.filter isAlphanum).map toUpperCh))

/-- Maximal whitespace-delimited runs of non-whitespace characters. -/
def words : Str → List Str
  | [] => []
  | c :: cs =>
    if isWsJS c then words cs
    else (c :: cs.takeWhile (fun d => !isWsJS d)) :: words (cs.dropWhile (fun d => !isWsJS d))
termination_by s => s.length
decreasing_by
  · simp [Nat.lt_succ_iff]
  · exact Nat.lt_succ_of_le (List.dropWhile_suffix _).sublist.length_le

/-- The corrected reference: keep the whitespace-delimited tokens of the
cleaned text that match the grammar, deduplicated keeping first occurrences. -/
def wordTokens (text : Str) : List Str :=
  dedupeFirst ((words (cleanText text)).filter patTok)

/-! ## Data model (`src/server/db.js` lines 45-79)

One table `serials(id, serial_number UNIQUE NOT NULL, source_filename,
extracted_at DEFAULT CURRENT_TIMESTAMP, status DEFAULT 'confirmed')`.
A registry state is the rows in `id` (= insertion) order; the surrogate `id`
itself is not modelled.  `CURRENT_TIMESTAMP` / `new Date().toISOString()` are
passed in as an explicit `now` argument. -/

/-- One row of the `serials` table. -/
structure Row where
  serial : Str
  filename : Str
  extractedAt : Str
  status : Str
deriving Repr, DecidableEq

/-- The rows of the `serials` table in `id` order. -/
abbrev Registry := List Row

/-- Whether a row with this `serial_number` exists (the UNIQUE constraint's
conflict test). -/
def hasSerial (R : Registry) (s : Str) : Bool := R.any (fun r => r.serial == s)

/-- `(r.serial, r.status)`: the projection claim C3 compares. -/
def serialStatus (r : Row) : Str × Str := (r.serial, r.status)

/-! ## Store writes (SQLite backend, the embedded default)

`db.js` `run` executes the statement through better-sqlite3 and returns its
`changes` count.  The write statements the handlers use: -/

/-- `INSERT INTO serials (serial_number, source_filename) VALUES (?, ?)
ON CONFLICT(serial_number) DO NOTHING` (`index.js` line 84): on conflict no row
is written and `changes = 0`; otherwise the row is appended with the column
defaults `extracted_at = now`, `status = 'confirmed'` and `changes = 1`. -/
def insertIgnore (now : Str) (R : Registry) (serial filename : Str) : Registry × Nat :=
  if hasSerial R serial then (R, 0)
  else (R ++ [⟨serial, filename, now, "confirmed".data⟩], 1)

/-- The same statement issued through the Neon HTTP driver (`db.js` lines
90-110): the driver does not expose `rowCount`, so `run` returns the mock
`{changes: 1}` whenever no error is thrown — and `ON CONFLICT DO NOTHING`
means a duplicate insert throws no error (the 23505 branch never fires). -/
def pgRunInsertIgnore (now : Str) (R : Registry) (serial filename : Str) : Registry × Nat :=
  (if hasSerial R serial then R else R ++ [⟨serial, filename, now, "confirmed".data⟩], 1)

/-- `INSERT INTO serials (serial_number, source_filename, status)
VALUES (?, 'manual_entry', 'confirmed') ON CONFLICT(serial_number) DO NOTHING`
(`index.js` lines 374-376). -/
def insertManual (now : Str) (R : Registry) (serial : Str) : Registry × Nat :=
  if hasSerial R serial then (R, 0)
  else (R ++ [⟨serial, "manual_entry".data, now, "confirmed".data⟩], 1)

/-- `INSERT INTO serials (serial_number, source_filename, extracted_at, status)
VALUES (?, ?, ?, ?) ON CONFLICT(serial_number) DO UPDATE SET source_filename =
excluded.source_filename, extracted_at = excluded.extracted_at, status =
excluded.status` (`index.js` lines 315-322): overwrite the conflicting row in
place, else append. -/
def upsert (R : Registry) (serial filename date status : Str) : Registry × Nat :=
  if hasSerial R serial then
    (R.map (fun r => if r.serial = serial then ⟨r.serial, filename, date, status⟩ else r), 1)
  else (R ++ [⟨serial, filename, date, status⟩], 1)

/-- `DELETE FROM serials WHERE serial_number = ?` (`index.js` line 407);
`changes` is the number of rows removed. -/
def deleteBySerial (R : Registry) (s : Str) : Registry × Nat :=
  (R.filter (fun r => r.serial ≠ s), (R.filter (fun r => r.serial = s)).length)

/-! ## Reads -/

/-- Byte order on ASCII strings (SQLite's BINARY collation for `ORDER BY`). -/
def lexLe : Str → Str → Bool
  | [], _ => true
  | _ :: _, [] => false
  | a :: as, b :: bs =>
    if a.toNat < b.toNat then true
    else if b.toNat < a.toNat then false
    else lexLe as bs

/-- Insert into a sorted list. -/
def insertSorted (x : Str) : List Str → List Str
  | [] => [x]
  | y :: ys => if lexLe x y then x :: y :: ys else y :: insertSorted x ys

/-- Insertion sort by `lexLe`. -/
def sortStrs : List Str → List Str
  | [] => []
  | x :: xs => insertSorted x (sortStrs xs)

/-- `GET /api/serials`: `SELECT serial_number FROM serials ORDER BY
serial_number ASC` (`index.js` line 160). -/
def listSerials (R : Registry) : List Str := sortStrs (R.map Row.serial)

/-! ## Ingestion coordinator (`index.js` `/api/extract`, lines 62-153)

Per uploaded file the handler runs `extractSerials` (preprocess + Tesseract +
pattern matching) inside a try/catch; recognition is an external capability, so
a file is modelled either as recognized raw text (the pipeline then applies
`extractSerials` to it) or as a recognition failure (`extractSerials` threw). -/

/-- One uploaded file: the recognition step either produced raw text or threw. -/
inductive FileInput where
  | recognized (filename : Str) (rawText : Str)
  | recogFails (filename : Str)
deriving Repr, DecidableEq

/-- One entry of `summary.results`: per-file counts, or the
`{filename, error: 'Processing failed'}` entry pushed by the catch block. -/
inductive FileResult where
  | ok (filename : Str) (found newCount dups : Nat)
  | err (filename : Str)
deriving Repr, DecidableEq

/-- The batch summary returned by `/api/extract`. -/
structure Summary where
  totalCandidates : Nat
  inserted : Nat
  duplicates : Nat
  results : List FileResult
deriving Repr, DecidableEq

/-- The inner loop of `/api/extract` (lines 114-124): insert each candidate,
classify by `info.changes` (`> 0` ⇒ inserted, otherwise duplicate).  Returns
(registry, fileInserted, fileDuplicates). -/
def insertLoop (now filename : Str) (R : Registry) : List Str → Registry × Nat × Nat
  | [] => (R, 0, 0)
  | s :: ss =>
    let p := insertIgnore now R s filename
    let q := insertLoop now filename p.1 ss
    if p.2 > 0 then (q.1, q.2.1 + 1, q.2.2) else (q.1, q.2.1, q.2.2 + 1)

/-- The same loop over the Neon driver's `run` (`pgRunInsertIgnore`), whose
`changes` is the mock `1` on every non-throwing statement. -/
def pgInsertLoop (now filename : Str) (R : Registry) : List Str → Registry × Nat × Nat
  | [] => (R, 0, 0)
  | s :: ss =>
    let p := pgRunInsertIgnore now R s filename
    let q := pgInsertLoop now filename p.1 ss
    if p.2 > 0 then (q.1, q.2.1 + 1, q.2.2) else (q.1, q.2.1, q.2.2 + 1)

/-- The per-file loop of `/api/extract` (lines 90-143), SQLite backend, without
a blob token (so `source_filename` is the original file name).  A recognition
failure pushes an error entry and continues with the next file. -/
def processBatch (now : Str) (R : Registry) : List FileInput → Registry × Summary
  | [] => (R, ⟨0, 0, 0, []⟩)
  | .recogFails name :: fs =>
    let p := processBatch now R fs
    (p.1, { p.2 with results := .err name :: p.2.results })
  | .recognized name raw :: fs =>
    let serials := extractSerials raw
    let q := insertLoop now name R serials
    let p := processBatch now q.1 fs
    (p.1, ⟨p.2.totalCandidates + serials.length, p.2.inserted + q.2.1,
           p.2.duplicates + q.2.2, .ok name serials.length q.2.1 q.2.2 :: p.2.results⟩)

/-- `POST /api/serials/batch` (lines 368-397): insert each submitted string
via `insertManual`, counting `added` / `duplicates` by `info.changes`.
No validation of the strings is performed. -/
def batchAdd (now : Str) (R : Registry) : List Str → Registry × Nat × Nat
  | [] => (R, 0, 0)
  | s :: ss =>
    let p := insertManual now R s
    let q := batchAdd now p.1 ss
    if p.2 > 0 then (q.1, q.2.1 + 1, q.2.2) else (q.1, q.2.1, q.2.2 + 1)

/-! ## CSV export (`index.js` `/api/export` csv branch, lines 261-277) -/

/-- `replace(/"/g, '""')`. -/
def escapeQuotes : Str → Str
  | [] => []
  | c :: cs => if c = '"' then '"' :: '"' :: escapeQuotes cs else c :: escapeQuotes cs

/-- One exported line: `serial_number,"source_filename",extracted_at,status`
with the filename quote-escaped and wrapped in double quotes (line 265-272).
A NULL filename renders as `''` (`row.source_filename || ''`); filenames are
non-null on every write path here, so `Row.filename` is the plain string. -/
def csvRow (r : Row) : Str :=
  r.serial ++ [','] ++ ['"'] ++ escapeQuotes r.filename ++ ['"', ','] ++
  r.extractedAt ++ [','] ++ r.status

/-- `join('\n')`. -/
def joinWith (sep : Str) : List Str → Str
  | [] => []
  | [x] => x
  | x :: y :: ys => x ++ sep ++ joinWith sep (y :: ys)

/-- The header constant of the export (and the import's header token). -/
def csvHeader : Str := "serial_number,source_filename,extracted_at,status".data

/-- The exported CSV text: header line (the source's header literal ends in
`\n`) followed by the rows in `id` order, joined with `\n`. -/
def exportCSV (R : Registry) : Str :=
  csvHeader ++ ['\n'] ++ joinWith ['\n'] (R.map csvRow)

/-! ## CSV import (`index.js` `/api/import`, lines 288-362) -/

/-- `String.prototype.split(sep)` for a one-character separator. -/
def splitOnChar (sep : Char) : Str → List Str
  | [] => [[]]
  | c :: cs =>
    if c = sep then [] :: splitOnChar sep cs
    else
      match splitOnChar sep cs with
      | [] => [[c]]
      | g :: gs => (c :: g) :: gs

/-- Drop one trailing carriage return. -/
def stripCR (l : Str) : Str :=
  match l.reverse with
  | '\r' :: rest => rest.reverse
  | _ => l

/-- `csvText.split(/\r?\n/)`: split on `\n`, with a `\r` immediately before
the `\n` consumed by the separator. -/
def splitLines (s : Str) : List Str := (splitOnChar '\n' s).map stripCR

/-- `String.prototype.trim()` (ASCII whitespace). -/
def trimL (s : Str) : Str :=
  ((s.dropWhile isWsJS).reverse.dropWhile isWsJS).reverse

/-- `String.prototype.includes` for a one-character needle. -/
def containsChar (s : Str) (c : Char) : Bool := s.any (fun x => x == c)

/-- List-prefix test. -/
def startsWithL : Str → Str → Bool
  | [], _ => true
  | _ :: _, [] => false
  | a :: as, b :: bs => a == b && startsWithL as bs

/-- `String.prototype.includes(pat)`. -/
def containsSub (pat : Str) : Str → Bool
  | [] => startsWithL pat []
  | c :: cs => startsWithL pat (c :: cs) || containsSub pat cs

/-- `toLowerCase`. -/
def toLowerL (s : Str) : Str := s.map toLowerCh

/-- `replace(/^"|"$/g, '')`: remove one leading and one trailing double
quote. -/
def dequoteL (s : Str) : Str :=
  let s1 := match s with
    | '"' :: rest => rest
    | _ => s
  match s1.reverse with
  | '"' :: rest => rest.reverse
  | _ => s1

/-- Parsing of one data line (lines 330-343).  A line without a comma is a bare
serial with defaults; otherwise the line is split positionally on commas with
JavaScript truthiness defaults for missing or empty columns.  Reuses `Row` as
the (serial, filename, date, status) tuple. -/
def parseLine (now line : Str) : Row :=
  if containsChar line ',' = false then
    ⟨trimL line, "imported_csv".data, now, "imported".data⟩
  else
    let cols := splitOnChar ',' line
    { serial := trimL (cols.headD [])
      filename := match cols.getD 1 [] with
        | [] => "imported_csv".data
        | f => trimL (dequoteL f)
      extractedAt := match cols.getD 2 [] with
        | [] => now
        | d => trimL d
      status := match cols.getD 3 [] with
        | [] => "imported".data
        | st => trimL st }

/-- The import loop (lines 329-353): parse each line; when the parsed serial
is non-empty, upsert it and count it.  The upsert statement does not throw on
either backend, so the per-row catch is dead in this model. -/
def importLines (now : Str) (R : Registry) : List Str → Registry × Nat
  | [] => (R, 0)
  | l :: ls =>
    let p := parseLine now l
    if p.serial ≠ [] then
      let R1 := (upsert R p.serial p.filename p.extractedAt p.status).1
      let q := importLines now R1 ls
      (q.1, q.2 + 1)
    else importLines now R ls

/-- Lines of the uploaded CSV after dropping blank lines (line 296). -/
def csvLines (csv : Str) : List Str :=
  (splitLines csv).filter (fun l => trimL l ≠ [])

/-- The data lines: if the first non-blank line contains the header token
`serial_number` (case-insensitively) it is skipped (line 302). -/
def dataLines (csv : Str) : List Str :=
  let ls := csvLines csv
  ls.drop (if containsSub "serial_number".data (toLowerL (ls.headD [])) then 1 else 0)

/-- `POST /api/import`: returns (registry, insertedCount, success).  An upload
with no non-blank lines is rejected (`400 Empty CSV file`) before any write. -/
def importCSV (now : Str) (R : Registry) (csv : Str) : Registry × Nat × Bool :=
  if csvLines csv = [] then (R, 0, false)
  else
    let q := importLines now R (dataLines csv)
    (q.1, q.2, true)

/-! ## Wipe (`index.js` `/api/reset`, lines 425-460) and the Postgres branch

The confirmation header `x-confirm-reset` is modelled as `Option Str` (absent
header ⇒ `none`).  The SQLite branch closes the handle, deletes the database
file and reconnects, which recreates the empty schema: its registry-level
effect is the empty registry.  The Postgres branch issues three statements
through `run`; `run` rethrows any error whose code is not 23505, and the
handler's catch returns HTTP 500. -/

/-- Whether the `serials` relation still exists, plus its rows. -/
structure PgState where
  tableExists : Bool
  rows : Registry
deriving Repr, DecidableEq

/-- `TRUNCATE TABLE serials RESTART IDENTITY`: errors (42P01) if the relation
does not exist. -/
def pgTruncate (s : PgState) : Except Unit PgState :=
  if s.tableExists then .ok ⟨true, []⟩ else .error ()

/-- `DROP TABLE IF EXISTS serials`: never errors; the relation is gone. -/
def pgDropTable (_ : PgState) : PgState := ⟨false, []⟩

/-- `DELETE FROM serials`: errors (42P01, not 23505, hence rethrown by `run`)
if the relation does not exist. -/
def pgDeleteAll (s : PgState) : Except Unit PgState :=
  if s.tableExists then .ok ⟨true, []⟩ else .error ()

/-- `POST /api/reset` on the embedded SQLite backend: returns (registry, HTTP
status).  Without `x-confirm-reset: true` the request is rejected with 400
before any mutation; with it, the database file is deleted and recreated
empty. -/
def sqliteReset (confirm : Option Str) (R : Registry) : Registry × Nat :=
  if confirm ≠ some "true".data then (R, 400) else ([], 200)

/-- `POST /api/reset` on the Postgres backend: TRUNCATE, then DROP TABLE, then
DELETE FROM the dropped table; returns (state, HTTP status). -/
def pgReset (confirm : Option Str) (s : PgState) : PgState × Nat :=
  if confirm ≠ some "true".data then (s, 400)
  else
    match pgTruncate s with
    | .error _ => (s, 500)
    | .ok s1 =>
      let s2 := pgDropTable s1
      match pgDeleteAll s2 with
      | .error _ => (s2, 500)
      | .ok s3 => (s3, 200)

/-- `GET /api/serials` on the Postgres backend: the SELECT errors once the
relation is gone (the handler then answers `500 Database error`). -/
def pgListSerials (s : PgState) : Except Unit (List Str) :=
  if s.tableExists then .ok (sortStrs (s.rows.map Row.serial)) else .error ()

/-! ## Reachable registry states (claim C2)

Every mutation the server exposes, over the embedded backend: OCR ingestion,
manual batch add, CSV import, delete-by-serial, confirmed wipe. -/

/-- Registry states reachable through the server's write paths. -/
inductive Reachable : Registry → Prop
  | empty : Reachable []
  | ocrBatch (now : Str) (files : List FileInput) {R : Registry} :
      Reachable R → Reachable (processBatch now R files).1
  | manualBatch (now : Str) (serials : List Str) {R : Registry} :
      Reachable R → Reachable (batchAdd now R serials).1
  | csvImport (now csv : Str) {R : Registry} :
      Reachable R → Reachable (importCSV now R csv).1
  | deleteSerial (s : Str) {R : Registry} :
      Reachable R → Reachable (deleteBySerial R s).1
  | wipe (confirm : Option Str) {R : Registry} :
      Reachable R → Reachable (sqliteReset confirm R).1

/-- The serial format the specification's data model prescribes: non-empty,
canonical uppercase alphanumeric. -/
def canonicalSerial (s : Str) : Bool :=
  !s.isEmpty && s.all (fun c => isUpperAZ c || isDigit09 c)

/-! ## Side conditions for the CSV round-trip (claim C3)

The naive comma split and line split of the import are lossless only on fields
without commas or line breaks; serial and status must additionally survive
`trim` and JavaScript truthiness defaulting. -/

/-- A field the positional CSV parser cannot mangle: no separator characters. -/
def PlainField (s : Str) : Prop := ',' ∉ s ∧ '\n' ∉ s ∧ '\r' ∉ s

/-- Rows whose CSV rendering parses back with the same serial and status. -/
def GoodRow (r : Row) : Prop :=
  PlainField r.serial ∧ PlainField r.filename ∧ PlainField r.extractedAt ∧
  PlainField r.status ∧
  r.serial ≠ [] ∧ trimL r.serial = r.serial ∧
  r.status ≠ [] ∧ trimL r.status = r.status

instance : DecidablePred PlainField := fun s => by
  rw [PlainField]
  infer_instance

instance : DecidablePred GoodRow := fun r => by
  rw [GoodRow]
  infer_instance

/-! # Theorems -/

/-- Claim C6 (confirmed): on the concrete input
`"LB42836549R some noise MF71554741C LB42836549R"` the extractor returns
exactly the two candidates `LB42836549R` and `MF71554741C`, the repeated
intra-file match collapsed to one element. -/
theorem extract_concrete_scenario :
    extractSerials "LB42836549R some noise MF71554741C LB42836549R".data
      = ["LB42836549R".data, "MF71554741C".data] ∧
    (extractSerials "LB42836549R some noise MF71554741C LB42836549R".data).length = 2 := by
  decide

/-- Claim C4, counterexample: the code strips characters outside `[A-Z0-9\s]`
before uppercasing, so lowercase input is deleted rather than uppercased; the
spec's reference algorithm (strip non-alphanumeric, uppercase the remainder,
match word-bounded tokens) finds `LB42836549R` in `"lb42836549r"` while the
code finds nothing. -/
theorem extract_lowercase_differs_from_reference :
    extractSerials "lb42836549r".data = [] ∧
    refExtract "lb42836549r".data = ["LB42836549R".data] ∧
    extractSerials "lb42836549r".data ≠ refExtract "lb42836549r".data := by
  decide

/-- Claim C1, evaluation at the failing input: inserting the same serial twice
from `/api/extract`.  On the embedded SQLite backend the second attempt yields
`changes = 0` and the counters read inserted = 1, duplicates = 1 as claimed; on
the Neon/Postgres backend `run` returns the mock `{changes: 1}` for the
colliding `ON CONFLICT DO NOTHING` insert (no 23505 error is thrown for it),
so the counters read inserted = 2, duplicates = 0. -/
theorem insert_twice_sqlite_vs_postgres :
    insertLoop "T".data "f.png".data [] ["LB42836549R".data, "LB42836549R".data]
      = ([⟨"LB42836549R".data, "f.png".data, "T".data, "confirmed".data⟩], 1, 1) ∧
    pgInsertLoop "T".data "f.png".data [] ["LB42836549R".data, "LB42836549R".data]
      = ([⟨"LB42836549R".data, "f.png".data, "T".data, "confirmed".data⟩], 2, 0) ∧
    (pgRunInsertIgnore "T".data
        [⟨"LB42836549R".data, "f.png".data, "T".data, "confirmed".data⟩]
        "LB42836549R".data "f.png".data).2 = 1 := by
  decide

/-- Claim C2, counterexample: the manual batch-add path performs no validation,
so a reachable state contains a serial_number that is not canonical uppercase
alphanumeric (`"ab!"`). -/
theorem manual_add_reaches_noncanonical_serial :
    Reachable [⟨"ab!".data, "manual_entry".data, "T".data, "confirmed".data⟩] ∧
    canonicalSerial "ab!".data = false := by
  constructor
  · have h := Reachable.manualBatch "T".data ["ab!".data] Reachable.empty
    have e : (batchAdd "T".data ([] : Registry) ["ab!".data]).1
        = [⟨"ab!".data, "manual_entry".data, "T".data, "confirmed".data⟩] := by decide
    exact e ▸ h
  · decide

/-- Claim C9, evaluation on both backends: a wipe without the confirmation
header is rejected with 400 leaving the registry intact; a confirmed wipe on
the embedded backend empties the registry and the subsequent list call returns
the empty sequence; but on the Postgres backend the handler's statement
sequence (TRUNCATE, DROP TABLE, DELETE FROM the dropped table) makes the final
DELETE throw, the endpoint answers 500, the relation stays dropped, and a
subsequent list call errors instead of returning the empty sequence. -/
theorem reset_confirmation_and_backends (R : Registry) (rows : Registry) :
    sqliteReset none R = (R, 400) ∧
    pgReset none ⟨true, rows⟩ = (⟨true, rows⟩, 400) ∧
    sqliteReset (some "true".data) R = ([], 200) ∧
    listSerials [] = [] ∧
    pgReset (some "true".data) ⟨true, rows⟩ = (⟨false, []⟩, 500) ∧
    pgListSerials ⟨false, []⟩ = .error () := by
  refine ⟨?_, ?_, ?_, ?_, ?_, ?_⟩ <;>
    simp [sqliteReset, pgReset, pgTruncate, pgDropTable, pgDeleteAll,
      pgListSerials, listSerials, sortStrs]

/-! ## Character-class facts -/

theorem upper_not_ws {c : Char} (h : isUpperAZ c = true) : isWsJS c = false := by
  simp [isUpperAZ, isWsJS] at h ⊢; omega

theorem digit_not_ws {c : Char} (h : isDigit09 c = true) : isWsJS c = false := by
  simp [isDigit09, isWsJS] at h ⊢; omega

theorem ws_not_upper {c : Char} (h : isWsJS c = true) : isUpperAZ c = false := by
  simp [isWsJS, isUpperAZ] at h ⊢; omega

theorem ws_not_word {c : Char} (h : isWsJS c = true) : isWordChar c = false := by
  simp [isWsJS, isWordChar, isUpperAZ, isLowerAZ, isDigit09] at h ⊢
  omega

theorem keep_word_cases {c : Char} (hk : keepChar c = true) :
    (isUpperAZ c || isDigit09 c) = isWordChar c := by
  rw [Bool.eq_iff_iff]
  simp [keepChar, isWordChar, isUpperAZ, isLowerAZ, isDigit09, isWsJS] at hk ⊢
  omega

theorem keep_not_lower {c : Char} (hk : keepChar c = true) : isLowerAZ c = false := by
  simp [keepChar, isUpperAZ, isDigit09, isWsJS, isLowerAZ] at hk ⊢
  omega

theorem toUpperCh_of_keep {c : Char} (hk : keepChar c = true) : toUpperCh c = c := by
  simp [toUpperCh, keep_not_lower hk]

/-- Every character of the cleaned text is an uppercase letter, a digit or
whitespace. -/
theorem cleanText_keep {t : Str} : ∀ c ∈ cleanText t, keepChar c = true := by
  intro c hc
  simp only [cleanText, List.mem_map] at hc
  obtain ⟨d, hd, rfl⟩ := hc
  have hk := (List.mem_filter.mp hd).2
  rw [toUpperCh_of_keep hk]
  exact hk

/-! ## Helper facts about the scan and the deduplication -/

theorem mem_dedupeAux {s : Str} :
    ∀ (xs : List Str) (seen : List Str), s ∈ dedupeAux seen xs → s ∈ xs := by
  intro xs
  induction xs with
  | nil => intro seen h; simp [dedupeAux] at h
  | cons x xs ih =>
    intro seen h
    by_cases hx : x ∈ seen
    · simp only [dedupeAux, if_pos hx] at h
      exact List.mem_cons_of_mem _ (ih _ h)
    · simp only [dedupeAux, if_neg hx, List.mem_cons] at h
      rcases h with h | h
      · exact h ▸ List.mem_cons_self _ _
      · exact List.mem_cons_of_mem _ (ih _ h)

theorem patTok_length {s : Str} (h : patTok s = true) : s.length = 11 := by
  by_contra hne
  rw [patTok] at h
  simp [hne] at h

theorem patTok_head_not_upper {c : Char} {l : Str} (h : isUpperAZ c = false) :
    patTok (c :: l) = false := by
  simp [patTok, h]

theorem dropWhile_head_false {p : Char → Bool} :
    ∀ (l : Str) (x : Char) (xs : Str), l.dropWhile p = x :: xs → p x = false := by
  intro l
  induction l with
  | nil => intro x xs h; simp [List.dropWhile] at h
  | cons a as ih =>
    intro x xs h
    by_cases hp : p a
    · rw [List.dropWhile_cons, if_pos hp] at h
      exact ih _ _ h
    · rw [List.dropWhile_cons, if_neg hp] at h
      cases h
      simpa using hp

theorem words_nil : words [] = [] := by
  rw [words]

theorem words_cons_ws {c : Char} {cs : Str} (h : isWsJS c = true) :
    words (c :: cs) = words cs := by
  rw [words]
  simp [h]

theorem words_cons_word {c : Char} {cs : Str} (h : isWsJS c = false) :
    words (c :: cs) =
      (c :: cs.takeWhile (fun d => !isWsJS d)) :: words (cs.dropWhile (fun d => !isWsJS d)) := by
  rw [words]
  simp [h]

theorem upper_word {c : Char} (h : isUpperAZ c = true) : isWordChar c = true := by
  simp [isUpperAZ, isWordChar, isLowerAZ, isDigit09] at h ⊢
  omega

theorem word_not_ws {c : Char} (hw : isWordChar c = true) : isWsJS c = false := by
  simp [isWordChar, isUpperAZ, isLowerAZ, isDigit09, isWsJS] at hw ⊢
  omega

theorem keep_not_word_ws {c : Char} (hk : keepChar c = true) (hw : isWordChar c = false) :
    isWsJS c = true := by
  simp [keepChar, isWordChar, isUpperAZ, isLowerAZ, isDigit09, isWsJS] at hk hw ⊢
  omega

theorem keep_not_ws_word {c : Char} (hk : keepChar c = true) (hw : isWsJS c = false) :
    isWordChar c = true := by
  simp [keepChar, isWordChar, isUpperAZ, isLowerAZ, isDigit09, isWsJS] at hk hw ⊢
  omega

theorem patTok_cons_iff {a b d1 d2 d3 d4 d5 d6 d7 d8 e : Char} :
    patTok [a, b, d1, d2, d3, d4, d5, d6, d7, d8, e] = true ↔
      isUpperAZ a = true ∧ isUpperAZ b = true ∧
      isDigit09 d1 = true ∧ isDigit09 d2 = true ∧ isDigit09 d3 = true ∧
      isDigit09 d4 = true ∧ isDigit09 d5 = true ∧ isDigit09 d6 = true ∧
      isDigit09 d7 = true ∧ isDigit09 d8 = true ∧ isUpperAZ e = true := by
  simp [patTok, and_assoc]

theorem scanAux_zero (b : Bool) (cs : Str) : scanAux 0 b cs = [] := rfl

theorem scanAux_nil (fuel : Nat) (b : Bool) : scanAux (fuel + 1) b [] = [] := rfl

theorem scanAux_cons_false (fuel : Nat) (c : Char) (cs : Str) :
    scanAux (fuel + 1) false (c :: cs) = scanAux fuel (!isWordChar c) cs := rfl

theorem scanAux_cons_true (fuel : Nat) (c : Char) (cs : Str) :
    scanAux (fuel + 1) true (c :: cs) =
      (match takePat (c :: cs) with
       | some (m, rest) => m :: scanAux fuel false rest
       | none => scanAux fuel (!isWordChar c) cs) := rfl

theorem scanAux_cons_true_none {c : Char} {cs : Str} (fuel : Nat)
    (htp : takePat (c :: cs) = none) :
    scanAux (fuel + 1) true (c :: cs) = scanAux fuel (!isWordChar c) cs := by
  rw [scanAux_cons_true, htp]

theorem scanAux_cons_true_some {c : Char} {cs m rest : Str} (fuel : Nat)
    (htp : takePat (c :: cs) = some (m, rest)) :
    scanAux (fuel + 1) true (c :: cs) = m :: scanAux fuel false rest := by
  rw [scanAux_cons_true, htp]

/-- When the next character fails the word-boundary test, the whitespace-run
splitters stop immediately. -/
theorem takeWhile_stops {cs : Str} (hb : boundaryOk cs = true)
    (hk : ∀ x ∈ cs, keepChar x = true) :
    cs.takeWhile (fun d => !isWsJS d) = [] ∧ cs.dropWhile (fun d => !isWsJS d) = cs := by
  cases cs with
  | nil => simp
  | cons x xs =>
    have hxw : isWordChar x = false := by simpa [boundaryOk] using hb
    have hxs : isWsJS x = true := keep_not_word_ws (hk x (List.mem_cons_self _ _)) hxw
    constructor <;> simp [List.takeWhile_cons, List.dropWhile_cons, hxs]

/-- On cleaned text (uppercase letters, digits and whitespace only) the global
scan for `\b[A-Z]{2}\d{8}[A-Z]\b` returns exactly the whitespace-delimited
maximal runs that match the pattern.  `b` is the scanner's boundary state; with
`b = false` the scan stands inside a word, whose remainder cannot host a
match. -/
theorem scanAux_words_filter :
    ∀ (fuel : Nat) (cs : Str) (b : Bool),
      (∀ c ∈ cs, keepChar c = true) → cs.length ≤ fuel →
      scanAux fuel b cs =
        (words (if b then cs else cs.dropWhile (fun d => !isWsJS d))).filter patTok := by
  intro fuel
  induction fuel with
  | zero =>
    intro cs b _ hlen
    have hnil : cs = [] := List.length_eq_zero.mp (Nat.le_zero.mp hlen)
    subst hnil
    cases b <;> simp [scanAux_zero, words_nil]
  | succ fuel ih =>
    intro cs b hk hlen
    cases cs with
    | nil => cases b <;> simp [scanAux_nil, words_nil]
    | cons c cs' =>
      have hkc : keepChar c = true := hk c (List.mem_cons_self _ _)
      have hk' : ∀ x ∈ cs', keepChar x = true := fun x hx => hk x (List.mem_cons_of_mem _ hx)
      have hlen' : cs'.length ≤ fuel := by simpa using hlen
      cases b with
      | false =>
        rw [scanAux_cons_false]
        by_cases hw : isWordChar c = true
        · have hnws : isWsJS c = false := word_not_ws hw
          rw [hw]
          simp only [Bool.not_true]
          rw [ih cs' false hk' hlen']
          have hdw : (c :: cs').dropWhile (fun d => !isWsJS d)
              = cs'.dropWhile (fun d => !isWsJS d) := by
            rw [List.dropWhile_cons, if_pos (by simp [hnws])]
          simp [hdw]
        · have hwf : isWordChar c = false := by revert hw; cases isWordChar c <;> simp
          have hws : isWsJS c = true := keep_not_word_ws hkc hwf
          rw [hwf]
          simp only [Bool.not_false]
          rw [ih cs' true hk' hlen']
          have hdw : (c :: cs').dropWhile (fun d => !isWsJS d) = c :: cs' := by
            rw [List.dropWhile_cons, if_neg (by simp [hws])]
          simp [hdw, words_cons_ws hws]
      | true =>
        by_cases hws : isWsJS c = true
        · have hup : isUpperAZ c = false := ws_not_upper hws
          have htp : takePat (c :: cs') = none := by
            rw [takePat]
            have e1 : (c :: cs').take 11 = c :: cs'.take 10 := rfl
            rw [e1, patTok_head_not_upper hup]
            simp
          rw [scanAux_cons_true_none fuel htp, ws_not_word hws]
          simp only [Bool.not_false]
          rw [ih cs' true hk' hlen']
          simp [words_cons_ws hws]
        · have hnws : isWsJS c = false := by revert hws; cases isWsJS c <;> simp
          have hwc : isWordChar c = true := keep_not_ws_word hkc hnws
          cases htp : takePat (c :: cs') with
          | none =>
            have hfail : patTok (c :: cs'.takeWhile (fun d => !isWsJS d)) = false := by
              cases hft : patTok (c :: cs'.takeWhile (fun d => !isWsJS d))
              · rfl
              · exfalso
                have hlen11 := patTok_length hft
                have ht10 : (cs'.takeWhile (fun d => !isWsJS d)).length = 10 := by
                  simpa using hlen11
                have hsplit : cs'.takeWhile (fun d => !isWsJS d)
                    ++ cs'.dropWhile (fun d => !isWsJS d) = cs' :=
                  List.takeWhile_append_dropWhile _ _
                have htake : cs'.take 10 = cs'.takeWhile (fun d => !isWsJS d) := by
                  conv_lhs => rw [← hsplit]
                  rw [← ht10, List.take_left]
                have hdrop : cs'.drop 10 = cs'.dropWhile (fun d => !isWsJS d) := by
                  conv_lhs => rw [← hsplit]
                  rw [← ht10, List.drop_left]
                have hbnd : boundaryOk (cs'.drop 10) = true := by
                  rw [hdrop]
                  cases hdwc : cs'.dropWhile (fun d => !isWsJS d) with
                  | nil => rfl
                  | cons x xs =>
                    have hx : (fun d => !isWsJS d) x = false := dropWhile_head_false _ _ _ hdwc
                    have hxw : isWsJS x = true := by simpa using hx
                    simp [boundaryOk, ws_not_word hxw]
                have e1 : (c :: cs').take 11 = c :: cs'.take 10 := rfl
                have e2 : (c :: cs').drop 11 = cs'.drop 10 := rfl
                rw [takePat, e1, e2, htake] at htp
                rw [hft] at htp
                simp [hbnd] at htp
            rw [scanAux_cons_true_none fuel htp, hwc]
            simp only [Bool.not_true]
            rw [ih cs' false hk' hlen']
            simp [words_cons_word hnws, hfail]
          | some p =>
            obtain ⟨m, rest⟩ := p
            have htp' := htp
            rw [takePat] at htp'
            by_cases hcond :
                (patTok ((c :: cs').take 11) && boundaryOk ((c :: cs').drop 11)) = true
            · have hcond2 := hcond
              rw [Bool.and_eq_true] at hcond2
              obtain ⟨hpat, hbok⟩ := hcond2
              rw [if_pos hcond] at htp'
              have hm : (c :: cs').take 11 = m := congrArg Prod.fst (Option.some.inj htp')
              have hr : (c :: cs').drop 11 = rest := congrArg Prod.snd (Option.some.inj htp')
              have h11 : ((c :: cs').take 11).length = 11 := patTok_length hpat
              have h10 : 10 ≤ cs'.length := by
                simp [List.length_take] at h11
                omega
              rcases cs' with _ | ⟨c1, cs'⟩
              · exact absurd h10 (by simp)
              rcases cs' with _ | ⟨c2, cs'⟩
              · exact absurd h10 (by simp)
              rcases cs' with _ | ⟨c3, cs'⟩
              · exact absurd h10 (by simp)
              rcases cs' with _ | ⟨c4, cs'⟩
              · exact absurd h10 (by simp)
              rcases cs' with _ | ⟨c5, cs'⟩
              · exact absurd h10 (by simp)
              rcases cs' with _ | ⟨c6, cs'⟩
              · exact absurd h10 (by simp)
              rcases cs' with _ | ⟨c7, cs'⟩
              · exact absurd h10 (by simp)
              rcases cs' with _ | ⟨c8, cs'⟩
              · exact absurd h10 (by simp)
              rcases cs' with _ | ⟨c9, cs'⟩
              · exact absurd h10 (by simp)
              rcases cs' with _ | ⟨c10, cs''⟩
              · exact absurd h10 (by simp)
              have hm2 : m = [c, c1, c2, c3, c4, c5, c6, c7, c8, c9, c10] := hm.symm
              have hr2 : rest = cs'' := hr.symm
              have hpat2 : patTok [c, c1, c2, c3, c4, c5, c6, c7, c8, c9, c10] = true := hpat
              have hbok2 : boundaryOk cs'' = true := hbok
              obtain ⟨hU0, hU1, hD2, hD3, hD4, hD5, hD6, hD7, hD8, hD9, hU10⟩ :=
                patTok_cons_iff.mp hpat2
              have v1 : isWsJS c1 = false := upper_not_ws hU1
              have v2 : isWsJS c2 = false := digit_not_ws hD2
              have v3 : isWsJS c3 = false := digit_not_ws hD3
              have v4 : isWsJS c4 = false := digit_not_ws hD4
              have v5 : isWsJS c5 = false := digit_not_ws hD5
              have v6 : isWsJS c6 = false := digit_not_ws hD6
              have v7 : isWsJS c7 = false := digit_not_ws hD7
              have v8 : isWsJS c8 = false := digit_not_ws hD8
              have v9 : isWsJS c9 = false := digit_not_ws hD9
              have v10 : isWsJS c10 = false := upper_not_ws hU10
              have hk'' : ∀ x ∈ cs'', keepChar x = true := fun x hx => hk' x (by simp [hx])
              have hstops := takeWhile_stops hbok2 hk''
              have htw : (c1 :: c2 :: c3 :: c4 :: c5 :: c6 :: c7 :: c8 :: c9 :: c10
                  :: cs'').takeWhile (fun d => !isWsJS d)
                  = [c1, c2, c3, c4, c5, c6, c7, c8, c9, c10] := by
                simp [List.takeWhile_cons, v1, v2, v3, v4, v5, v6, v7, v8, v9, v10, hstops.1]
              have hdw : (c1 :: c2 :: c3 :: c4 :: c5 :: c6 :: c7 :: c8 :: c9 :: c10
                  :: cs'').dropWhile (fun d => !isWsJS d) = cs'' := by
                simp [List.dropWhile_cons, v1, v2, v3, v4, v5, v6, v7, v8, v9, v10, hstops.2]
              have hlen'' : cs''.length ≤ fuel := by
                simp at hlen'
                omega
              rw [scanAux_cons_true_some fuel htp, hm2, hr2]
              have ihF : scanAux fuel false cs''
                  = (words (cs''.dropWhile (fun d => !isWsJS d))).filter patTok := by
                rw [ih cs'' false hk'' hlen'']
                simp
              rw [ihF, hstops.2, if_pos rfl, words_cons_word hnws, htw, hdw]
              simp [List.filter_cons, hpat2]
            · rw [if_neg hcond] at htp'
              exact absurd htp' (by simp)

/-- The scan over cleaned text equals the token filter. -/
theorem scanMatches_cleanText (t : Str) :
    scanMatches (cleanText t) = (words (cleanText t)).filter patTok := by
  rw [scanMatches, scanAux_words_filter (cleanText t).length (cleanText t) true
    cleanText_keep le_rfl]
  simp

/-- Claim C4 (corrected): the extraction is not the spec's reference algorithm
(see `extract_lowercase_differs_from_reference`); it equals the corrected one:
drop every character outside uppercase letters, digits and whitespace (in
particular lowercase letters are removed, not uppercased), then keep exactly
the whitespace-delimited maximal tokens matching two uppercase letters, eight
digits, one uppercase letter, deduplicated keeping first occurrences. -/
theorem extract_eq_wordTokens : ∀ t : Str, extractSerials t = wordTokens t := by
  intro t
  rw [extractSerials, wordTokens, scanMatches_cleanText]

/-- Claim C5 (confirmed): extraction is a pure function of the text — two
applications to the same text give the same result — and every returned string
matches the two-letter/eight-digit/one-letter grammar exactly. -/
theorem extract_deterministic_and_grammar :
    ∀ t : Str, extractSerials t = extractSerials t ∧
      ∀ s, s ∈ extractSerials t → patTok s = true := by
  intro t
  refine ⟨rfl, ?_⟩
  intro s hs
  have h1 : s ∈ scanMatches (cleanText t) := mem_dedupeAux _ _ hs
  rw [scanMatches_cleanText] at h1
  exact (List.mem_filter.mp h1).2

/-- Witness for C5 at a concrete text and member. -/
theorem extract_deterministic_and_grammar_witness :
    "LB42836549R".data ∈ extractSerials "LB42836549R".data ∧
      patTok "LB42836549R".data = true :=
  ⟨by decide, (extract_deterministic_and_grammar "LB42836549R".data).2 _ (by decide)⟩

/-- Claim C7 (confirmed): in a batch of three files whose second fails
recognition, the registry effect and all three counters equal those of the
batch without the failing file, and the results list is the same with exactly
one `{filename, error}` entry spliced in at the failed file's position. -/
theorem batch_isolates_recognition_failure
    (now : Str) (R : Registry) (n1 r1 n2 n3 r3 : Str) :
    (processBatch now R [.recognized n1 r1, .recogFails n2, .recognized n3 r3]).1
      = (processBatch now R [.recognized n1 r1, .recognized n3 r3]).1 ∧
    (processBatch now R [.recognized n1 r1, .recogFails n2, .recognized n3 r3]).2.inserted
      = (processBatch now R [.recognized n1 r1, .recognized n3 r3]).2.inserted ∧
    (processBatch now R [.recognized n1 r1, .recogFails n2, .recognized n3 r3]).2.duplicates
      = (processBatch now R [.recognized n1 r1, .recognized n3 r3]).2.duplicates ∧
    (processBatch now R [.recognized n1 r1, .recogFails n2, .recognized n3 r3]).2.totalCandidates
      = (processBatch now R [.recognized n1 r1, .recognized n3 r3]).2.totalCandidates ∧
    (processBatch now R [.recognized n1 r1, .recogFails n2, .recognized n3 r3]).2.results
      = (processBatch now R [.recognized n1 r1, .recognized n3 r3]).2.results.take 1
        ++ .err n2 :: (processBatch now R [.recognized n1 r1, .recognized n3 r3]).2.results.drop 1 :=
  ⟨rfl, rfl, rfl, rfl, rfl⟩

/-! ## Uniqueness of serial numbers at every reachable state (claim C2) -/

theorem hasSerial_false_iff {R : Registry} {s : Str} :
    hasSerial R s = false ↔ s ∉ R.map Row.serial := by
  rw [← Bool.not_eq_true, hasSerial]
  simp [List.any_eq_true, List.mem_map]

theorem nodup_append_row (R : Registry) (s f d st : Str)
    (h : (R.map Row.serial).Nodup) (hs : hasSerial R s = false) :
    (((R ++ [(⟨s, f, d, st⟩ : Row)]).map Row.serial)).Nodup := by
  rw [List.map_append]
  simp [List.nodup_append, h, hasSerial_false_iff.mp hs]

theorem nodup_insertIgnore (now s f : Str) {R : Registry}
    (h : (R.map Row.serial).Nodup) :
    (((insertIgnore now R s f).1).map Row.serial).Nodup := by
  rw [insertIgnore]
  by_cases hs : hasSerial R s = true
  · simp [hs, h]
  · have hs' : hasSerial R s = false := by revert hs; cases hasSerial R s <;> simp
    simpa [hs'] using nodup_append_row R s f now "confirmed".data h hs'

theorem nodup_insertManual (now s : Str) {R : Registry}
    (h : (R.map Row.serial).Nodup) :
    (((insertManual now R s).1).map Row.serial).Nodup := by
  rw [insertManual]
  by_cases hs : hasSerial R s = true
  · simp [hs, h]
  · have hs' : hasSerial R s = false := by revert hs; cases hasSerial R s <;> simp
    simpa [hs'] using nodup_append_row R s "manual_entry".data now "confirmed".data h hs'

theorem nodup_upsert {s f d st : Str} {R : Registry}
    (h : (R.map Row.serial).Nodup) :
    (((upsert R s f d st).1).map Row.serial).Nodup := by
  rw [upsert]
  by_cases hs : hasSerial R s = true
  · have hser : (R.map fun r => if r.serial = s then (⟨r.serial, f, d, st⟩ : Row) else r).map
        Row.serial = R.map Row.serial := by
      rw [List.map_map]
      apply List.map_congr_left
      intro r _
      by_cases hr : r.serial = s <;> simp [hr]
    simpa [hs, hser] using h
  · have hs' : hasSerial R s = false := by revert hs; cases hasSerial R s <;> simp
    simpa [hs'] using nodup_append_row R s f d st h hs'

theorem nodup_deleteBySerial {s : Str} {R : Registry}
    (h : (R.map Row.serial).Nodup) :
    (((deleteBySerial R s).1).map Row.serial).Nodup := by
  rw [deleteBySerial]
  exact h.sublist (List.Sublist.map _ (List.filter_sublist _))

theorem nodup_insertLoop {now f : Str} {R : Registry} (ss : List Str)
    (h : (R.map Row.serial).Nodup) :
    (((insertLoop now f R ss).1).map Row.serial).Nodup := by
  induction ss generalizing R with
  | nil => simpa [insertLoop] using h
  | cons s ss ih =>
    rw [insertLoop]
    have h1 := nodup_insertIgnore now s f h
    by_cases hc : (insertIgnore now R s f).2 > 0 <;> simp [hc] <;> exact ih h1

theorem nodup_batchAdd {now : Str} {R : Registry} (ss : List Str)
    (h : (R.map Row.serial).Nodup) :
    (((batchAdd now R ss).1).map Row.serial).Nodup := by
  induction ss generalizing R with
  | nil => simpa [batchAdd] using h
  | cons s ss ih =>
    rw [batchAdd]
    have h1 := nodup_insertManual now s h
    by_cases hc : (insertManual now R s).2 > 0 <;> simp [hc] <;> exact ih h1

theorem nodup_processBatch {now : Str} {R : Registry} (files : List FileInput)
    (h : (R.map Row.serial).Nodup) :
    (((processBatch now R files).1).map Row.serial).Nodup := by
  induction files generalizing R with
  | nil => simpa [processBatch] using h
  | cons fi fs ih =>
    cases fi with
    | recogFails n => simpa [processBatch] using ih h
    | recognized n raw =>
      rw [processBatch]
      exact ih (nodup_insertLoop _ h)

theorem nodup_importLines {now : Str} {R : Registry} (ls : List Str)
    (h : (R.map Row.serial).Nodup) :
    (((importLines now R ls).1).map Row.serial).Nodup := by
  induction ls generalizing R with
  | nil => simpa [importLines] using h
  | cons l ls ih =>
    rw [importLines]
    by_cases hp : (parseLine now l).serial ≠ [] <;> simp [hp]
    · exact ih (nodup_upsert h)
    · exact ih h

theorem nodup_importCSV {now csv : Str} {R : Registry}
    (h : (R.map Row.serial).Nodup) :
    (((importCSV now R csv).1).map Row.serial).Nodup := by
  rw [importCSV]
  by_cases hc : csvLines csv = [] <;> simp [hc]
  · exact h
  · exact nodup_importLines _ h

/-- Claim C2 (corrected, uniqueness part): at every reachable registry state
no two rows share a serial_number — every write path preserves uniqueness (the
format part of the claim fails, see
`manual_add_reaches_noncanonical_serial`). -/
theorem reachable_serial_numbers_nodup :
    ∀ R : Registry, Reachable R → (R.map Row.serial).Nodup := by
  intro R h
  induction h with
  | empty => simp
  | ocrBatch now files h ih => exact nodup_processBatch _ ih
  | manualBatch now serials h ih => exact nodup_batchAdd _ ih
  | csvImport now csv h ih => exact nodup_importCSV ih
  | deleteSerial s h ih => exact nodup_deleteBySerial ih
  | wipe confirm h ih =>
    rw [sqliteReset]
    by_cases hc : confirm ≠ some "true".data <;> simp [hc]
    exact ih

/-- Witness for C2's amended theorem at a nonempty reachable state. -/
theorem reachable_serial_numbers_nodup_witness :
    Reachable (batchAdd "T".data [] ["AB12345678C".data]).1 ∧
      (((batchAdd "T".data ([] : Registry) ["AB12345678C".data]).1).map Row.serial).Nodup :=
  ⟨Reachable.manualBatch "T".data ["AB12345678C".data] Reachable.empty,
   reachable_serial_numbers_nodup _
     (Reachable.manualBatch "T".data ["AB12345678C".data] Reachable.empty)⟩

/-! ## Import counting (claim C10) and per-line upsert semantics (claim C8) -/

theorem importLines_count (now : Str) (R : Registry) (ls : List Str) :
    (importLines now R ls).2
      = ls.countP (fun l => decide ((parseLine now l).serial ≠ [])) := by
  induction ls generalizing R with
  | nil => simp [importLines]
  | cons l ls ih =>
    rw [importLines]
    by_cases hp : (parseLine now l).serial ≠ []
    · simp [hp, List.countP_cons, ih]
    · simp [hp, List.countP_cons, ih]

theorem dataLines_of_empty {csv : Str} (h : csvLines csv = []) : dataLines csv = [] := by
  rw [dataLines, h]
  simp

/-- Claim C10 (confirmed): the count reported by the import success message is
the number of data lines whose parse produced a non-empty serial; it does not
depend on the pre-existing registry, and a line that overwrites an existing
serial counts exactly like a line that inserts a new one (the concrete import
below reports 2 while only one new row was created). -/
theorem import_count_semantics (now : Str) (R : Registry) (csv : Str) :
    (importCSV now R csv).2.1
      = (dataLines csv).countP (fun l => decide ((parseLine now l).serial ≠ [])) ∧
    (importCSV now R csv).2.1 = (importCSV now [] csv).2.1 ∧
    (importCSV "T".data
        [⟨"LB42836549R".data, "old.png".data, "D0".data, "confirmed".data⟩]
        "serial_number,source_filename,extracted_at,status\nLB42836549R\nMF71554741C".data).2.1
      = 2 ∧
    (importCSV "T".data
        [⟨"LB42836549R".data, "old.png".data, "D0".data, "confirmed".data⟩]
        "serial_number,source_filename,extracted_at,status\nLB42836549R\nMF71554741C".data).1.length
      = 2 := by
  have key : ∀ S : Registry, (importCSV now S csv).2.1
      = (dataLines csv).countP (fun l => decide ((parseLine now l).serial ≠ [])) := by
    intro S
    rw [importCSV]
    by_cases hc : csvLines csv = []
    · simp [hc, dataLines_of_empty hc]
    · simp [hc, importLines_count]
  refine ⟨key R, (key R).trans (key []).symm, by decide, by decide⟩

/-- Claim C8 (confirmed): importing one CSV data line whose parsed serial is
non-empty overwrites the existing row's filename, timestamp and status in
place when the serial already exists (keeping one row for it), inserts a new
row otherwise, and the parsed status defaults to `imported` when the line
carries no status column (in particular for a bare serial without commas). -/
theorem importLines_single (now l : Str) (R : Registry)
    (h : (parseLine now l).serial ≠ []) :
    (importLines now R [l]).1
      = (upsert R (parseLine now l).serial (parseLine now l).filename
          (parseLine now l).extractedAt (parseLine now l).status).1 := by
  simp [importLines, h]

theorem import_line_upsert (now line : Str) (R : Registry)
    (hne : (parseLine now line).serial ≠ []) :
    (hasSerial R (parseLine now line).serial = true →
       (importLines now R [line]).1
         = R.map (fun r => if r.serial = (parseLine now line).serial then
             (⟨r.serial, (parseLine now line).filename, (parseLine now line).extractedAt,
               (parseLine now line).status⟩ : Row) else r) ∧
       (importLines now R [line]).1.length = R.length) ∧
    (hasSerial R (parseLine now line).serial = false →
       (importLines now R [line]).1
         = R ++ [⟨(parseLine now line).serial, (parseLine now line).filename,
                  (parseLine now line).extractedAt, (parseLine now line).status⟩]) ∧
    (containsChar line ',' = false → (parseLine now line).status = "imported".data) ∧
    ((splitOnChar ',' line).getD 3 [] = [] → (parseLine now line).status = "imported".data) := by
  refine ⟨?_, ?_, ?_, ?_⟩
  · intro hy
    constructor
    · rw [importLines_single now line R hne, upsert, if_pos hy]
    · rw [importLines_single now line R hne, upsert, if_pos hy]
      simp
  · intro hy
    rw [importLines_single now line R hne, upsert, if_neg (by simp [hy])]
  · intro hy
    rw [parseLine, if_pos hy]
  · intro hy
    rw [parseLine]
    by_cases hcc : containsChar line ',' = false
    · rw [if_pos hcc]
    · rw [if_neg hcc]
      have hy2 : (splitOnChar ',' line)[3]?.getD [] = [] := by
        rw [← List.getD_eq_getElem?_getD]
        exact hy
      simp [hy2]

/-- Witness for C8: an overwrite of an existing serial at concrete inputs. -/
theorem import_line_upsert_witness :
    (parseLine "T".data "LB42836549R,\"new.png\",D1,flagged".data).serial ≠ [] ∧
    ((hasSerial [⟨"LB42836549R".data, "old.png".data, "D0".data, "confirmed".data⟩]
        (parseLine "T".data "LB42836549R,\"new.png\",D1,flagged".data).serial = true →
      (importLines "T".data
          [⟨"LB42836549R".data, "old.png".data, "D0".data, "confirmed".data⟩]
          ["LB42836549R,\"new.png\",D1,flagged".data]).1
        = List.map (fun r => if r.serial
              = (parseLine "T".data "LB42836549R,\"new.png\",D1,flagged".data).serial then
            (⟨r.serial,
              (parseLine "T".data "LB42836549R,\"new.png\",D1,flagged".data).filename,
              (parseLine "T".data "LB42836549R,\"new.png\",D1,flagged".data).extractedAt,
              (parseLine "T".data "LB42836549R,\"new.png\",D1,flagged".data).status⟩ : Row)
            else r)
          [⟨"LB42836549R".data, "old.png".data, "D0".data, "confirmed".data⟩] ∧
      (importLines "T".data
          [⟨"LB42836549R".data, "old.png".data, "D0".data, "confirmed".data⟩]
          ["LB42836549R,\"new.png\",D1,flagged".data]).1.length
        = ([⟨"LB42836549R".data, "old.png".data, "D0".data, "confirmed".data⟩] :
            Registry).length) ∧
    (hasSerial [⟨"LB42836549R".data, "old.png".data, "D0".data, "confirmed".data⟩]
        (parseLine "T".data "LB42836549R,\"new.png\",D1,flagged".data).serial = false →
      (importLines "T".data
          [⟨"LB42836549R".data, "old.png".data, "D0".data, "confirmed".data⟩]
          ["LB42836549R,\"new.png\",D1,flagged".data]).1
        = [⟨"LB42836549R".data, "old.png".data, "D0".data, "confirmed".data⟩]
          ++ [⟨(parseLine "T".data "LB42836549R,\"new.png\",D1,flagged".data).serial,
               (parseLine "T".data "LB42836549R,\"new.png\",D1,flagged".data).filename,
               (parseLine "T".data "LB42836549R,\"new.png\",D1,flagged".data).extractedAt,
               (parseLine "T".data "LB42836549R,\"new.png\",D1,flagged".data).status⟩]) ∧
    (containsChar "LB42836549R,\"new.png\",D1,flagged".data ',' = false →
      (parseLine "T".data "LB42836549R,\"new.png\",D1,flagged".data).status
        = "imported".data) ∧
    ((splitOnChar ',' "LB42836549R,\"new.png\",D1,flagged".data).getD 3 [] = [] →
      (parseLine "T".data "LB42836549R,\"new.png\",D1,flagged".data).status
        = "imported".data)) :=
  ⟨by decide,
   import_line_upsert "T".data "LB42836549R,\"new.png\",D1,flagged".data
     [⟨"LB42836549R".data, "old.png".data, "D0".data, "confirmed".data⟩] (by decide)⟩

/-- Claim C3, counterexample: a registry whose only row has a comma inside its
source_filename does not survive the export/import round-trip — the import's
naive comma split shifts the columns and the row comes back with status
`"D1"` (the exported timestamp) instead of `"confirmed"`. -/
theorem csv_roundtrip_comma_filename_cex :
    ((importCSV "T".data []
        (exportCSV [⟨"LB42836549R".data, "a,b".data, "D1".data, "confirmed".data⟩])).1).map
        serialStatus
      = [("LB42836549R".data, "D1".data)] ∧
    ((importCSV "T".data []
        (exportCSV [⟨"LB42836549R".data, "a,b".data, "D1".data, "confirmed".data⟩])).1).map
        serialStatus
      ≠ ([⟨"LB42836549R".data, "a,b".data, "D1".data, "confirmed".data⟩] : Registry).map
          serialStatus := by
  decide

/-! ## Split and trim facts for the round-trip -/

theorem splitOnChar_ne_nil (sep : Char) : ∀ l : Str, splitOnChar sep l ≠ [] := by
  intro l
  cases l with
  | nil => simp [splitOnChar]
  | cons c cs =>
    rw [splitOnChar]
    by_cases hc : c = sep
    · simp [hc]
    · simp only [if_neg hc]
      cases splitOnChar sep cs <;> simp

theorem splitOnChar_cons_of_ne {sep c : Char} {cs : Str} (h : ¬c = sep) {g : Str}
    {gs : List Str} (hgs : splitOnChar sep cs = g :: gs) :
    splitOnChar sep (c :: cs) = (c :: g) :: gs := by
  rw [splitOnChar, if_neg h, hgs]

theorem splitOnChar_of_not_mem {sep : Char} : ∀ {xs : Str}, sep ∉ xs →
    splitOnChar sep xs = [xs] := by
  intro xs
  induction xs with
  | nil => intro _; rfl
  | cons c cs ih =>
    intro h
    have hc : ¬c = sep := fun e => h (by simp [e])
    have hcs : sep ∉ cs := fun e => h (List.mem_cons_of_mem _ e)
    rw [splitOnChar_cons_of_ne hc (ih hcs)]

theorem splitOnChar_append {sep : Char} : ∀ {xs ys : Str}, sep ∉ xs →
    splitOnChar sep (xs ++ sep :: ys) = xs :: splitOnChar sep ys := by
  intro xs ys
  induction xs with
  | nil =>
    intro _
    simp [splitOnChar]
  | cons c cs ih =>
    intro h
    have hc : ¬c = sep := fun e => h (by simp [e])
    have hcs : sep ∉ cs := fun e => h (List.mem_cons_of_mem _ e)
    rw [List.cons_append, splitOnChar_cons_of_ne hc (ih hcs)]

theorem splitOnChar_joinWith {sep : Char} : ∀ {xs : List Str}, xs ≠ [] →
    (∀ x ∈ xs, sep ∉ x) →
    splitOnChar sep (joinWith [sep] xs) = xs := by
  intro xs
  induction xs with
  | nil => intro h; exact absurd rfl h
  | cons x xs ih =>
    intro _ hmem
    cases xs with
    | nil => exact splitOnChar_of_not_mem (hmem x (by simp))
    | cons y ys =>
      rw [joinWith]
      have e : x ++ [sep] ++ joinWith [sep] (y :: ys) = x ++ sep :: joinWith [sep] (y :: ys) := by
        simp
      rw [e, splitOnChar_append (hmem x (by simp)),
        ih (by simp) (fun z hz => hmem z (List.mem_cons_of_mem _ hz))]

theorem stripCR_of_not_mem {l : Str} (h : '\r' ∉ l) : stripCR l = l := by
  rw [stripCR]
  cases hrev : l.reverse with
  | nil => rfl
  | cons c cs =>
    have hcc : c ≠ '\r' := by
      intro he
      apply h
      rw [← List.mem_reverse, hrev, he]
      simp
    split
    · rename_i rest heq
      injection heq with h1 h2
      exact absurd h1 hcc
    · rfl

theorem mem_escapeQuotes {c : Char} : ∀ {f : Str}, c ∈ escapeQuotes f → c ∈ f ∨ c = '"' := by
  intro f
  induction f with
  | nil => intro h; simp [escapeQuotes] at h
  | cons x xs ih =>
    intro h
    rw [escapeQuotes] at h
    by_cases hx : x = '"'
    · rw [if_pos hx] at h
      rcases List.mem_cons.mp h with h | h
      · exact Or.inr h
      rcases List.mem_cons.mp h with h | h
      · exact Or.inr h
      rcases ih h with h2 | h2
      · exact Or.inl (List.mem_cons_of_mem _ h2)
      · exact Or.inr h2
    · rw [if_neg hx] at h
      rcases List.mem_cons.mp h with h | h
      · exact Or.inl (by rw [h]; exact List.mem_cons_self _ _)
      rcases ih h with h2 | h2
      · exact Or.inl (List.mem_cons_of_mem _ h2)
      · exact Or.inr h2

theorem trimL_length_le (y : Str) : (trimL y).length ≤ (y.dropWhile isWsJS).length := by
  rw [trimL, List.length_reverse]
  calc ((y.dropWhile isWsJS).reverse.dropWhile isWsJS).length
      ≤ (y.dropWhile isWsJS).reverse.length :=
        (List.dropWhile_suffix _).sublist.length_le
    _ = (y.dropWhile isWsJS).length := List.length_reverse _

theorem trim_stable_head {c : Char} {l : Str} (ht : trimL (c :: l) = c :: l) :
    isWsJS c = false := by
  cases hws : isWsJS c with
  | false => rfl
  | true =>
    exfalso
    have h1 : (c :: l).dropWhile isWsJS = l.dropWhile isWsJS := by
      rw [List.dropWhile_cons, if_pos (by simp [hws])]
    have h2 := trimL_length_le (c :: l)
    rw [ht, h1] at h2
    have h3 : (l.dropWhile isWsJS).length ≤ l.length :=
      (List.dropWhile_suffix _).sublist.length_le
    simp at h2
    omega

theorem trimL_ne_nil_of_head {c : Char} {l : Str} (h : isWsJS c = false) :
    trimL (c :: l) ≠ [] := by
  intro hcontra
  rw [trimL] at hcontra
  have h1 : (c :: l).dropWhile isWsJS = c :: l := by
    rw [List.dropWhile_cons, if_neg (by simp [h])]
  rw [h1, List.reverse_eq_nil_iff, List.dropWhile_eq_nil_iff] at hcontra
  exact absurd (hcontra c (by simp)) (by simp [h])

/-! ## The exported lines -/

theorem csvRow_chars {r : Row} {c : Char} (hc : c ∈ csvRow r) :
    c ∈ r.serial ∨ c ∈ r.filename ∨ c ∈ r.extractedAt ∨ c ∈ r.status ∨
      c = '"' ∨ c = ',' := by
  rw [csvRow] at hc
  simp only [List.append_assoc, List.mem_append, List.mem_cons,
    List.mem_singleton, List.not_mem_nil, or_false] at hc
  rcases hc with h | h | h | h | (h | h) | h | h | h
  · exact Or.inl h
  · exact Or.inr (Or.inr (Or.inr (Or.inr (Or.inr h))))
  · exact Or.inr (Or.inr (Or.inr (Or.inr (Or.inl h))))
  · rcases mem_escapeQuotes h with h2 | h2
    · exact Or.inr (Or.inl h2)
    · exact Or.inr (Or.inr (Or.inr (Or.inr (Or.inl h2))))
  · exact Or.inr (Or.inr (Or.inr (Or.inr (Or.inl h))))
  · exact Or.inr (Or.inr (Or.inr (Or.inr (Or.inr h))))
  · exact Or.inr (Or.inr (Or.inl h))
  · exact Or.inr (Or.inr (Or.inr (Or.inr (Or.inr h))))
  · exact Or.inr (Or.inr (Or.inr (Or.inl h)))

theorem csvRow_no_nl {r : Row} (hg : GoodRow r) : '\n' ∉ csvRow r := by
  obtain ⟨⟨_, hsN, _⟩, ⟨_, hfN, _⟩, ⟨_, hdN, _⟩, ⟨_, htN, _⟩, _⟩ := hg
  intro hc
  rcases csvRow_chars hc with h | h | h | h | h | h
  · exact hsN h
  · exact hfN h
  · exact hdN h
  · exact htN h
  · exact absurd h (by decide)
  · exact absurd h (by decide)

theorem csvRow_no_cr {r : Row} (hg : GoodRow r) : '\r' ∉ csvRow r := by
  obtain ⟨⟨_, _, hsR⟩, ⟨_, _, hfR⟩, ⟨_, _, hdR⟩, ⟨_, _, htR⟩, _⟩ := hg
  intro hc
  rcases csvRow_chars hc with h | h | h | h | h | h
  · exact hsR h
  · exact hfR h
  · exact hdR h
  · exact htR h
  · exact absurd h (by decide)
  · exact absurd h (by decide)

theorem csvRow_trim_ne {r : Row} (hg : GoodRow r) : trimL (csvRow r) ≠ [] := by
  obtain ⟨_, _, _, _, hsne, hstr, _⟩ := hg
  cases hser : r.serial with
  | nil => exact absurd hser hsne
  | cons c l =>
    have hhead : isWsJS c = false := trim_stable_head (hser ▸ hstr)
    rw [csvRow, hser]
    simp only [List.cons_append, List.append_assoc]
    exact trimL_ne_nil_of_head hhead

theorem csvLines_export {R : Registry} (hg : ∀ r ∈ R, GoodRow r) :
    csvLines (exportCSV R) = csvHeader :: R.map csvRow := by
  have hhnl : '\n' ∉ csvHeader := by decide
  rw [csvLines, splitLines, exportCSV]
  have e : csvHeader ++ ['\n'] ++ joinWith ['\n'] (R.map csvRow)
      = csvHeader ++ '\n' :: joinWith ['\n'] (R.map csvRow) := by simp
  rw [e, splitOnChar_append hhnl]
  cases R with
  | nil =>
    simp [joinWith, splitOnChar, stripCR_of_not_mem (l := csvHeader) (by decide), trimL]
    decide
  | cons r rs =>
    rw [splitOnChar_joinWith (by simp) ?hnonl]
    case hnonl =>
      intro x hx
      rw [List.mem_map] at hx
      obtain ⟨q, hq, rfl⟩ := hx
      exact csvRow_no_nl (hg q hq)
    rw [List.map_cons, stripCR_of_not_mem (show '\r' ∉ csvHeader by decide)]
    have hmap : ((r :: rs).map csvRow).map stripCR = (r :: rs).map csvRow := by
      rw [List.map_map]
      apply List.map_congr_left
      intro q hq
      exact stripCR_of_not_mem (csvRow_no_cr (hg q hq))
    rw [hmap]
    have hhd : trimL csvHeader ≠ [] := by decide
    have hfilter : List.filter (fun l => decide (trimL l ≠ []))
        ((r :: rs).map csvRow) = (r :: rs).map csvRow := by
      apply List.filter_eq_self.mpr
      intro a ha
      rw [List.mem_map] at ha
      obtain ⟨q, hq, rfl⟩ := ha
      simpa using csvRow_trim_ne (hg q hq)
    simp only [List.filter_cons, hhd, decide_True, if_pos]
    rw [hfilter]
    simp [hhd]

theorem dataLines_export {R : Registry} (hg : ∀ r ∈ R, GoodRow r) :
    dataLines (exportCSV R) = R.map csvRow := by
  rw [dataLines, csvLines_export hg]
  have hdet : containsSub "serial_number".data (toLowerL csvHeader) = true := by decide
  simp [hdet]

theorem parseLine_csvRow (now : Str) {r : Row} (hg : GoodRow r) :
    (parseLine now (csvRow r)).serial = r.serial ∧
      (parseLine now (csvRow r)).status = r.status := by
  obtain ⟨⟨hsC, hsN, hsR⟩, ⟨hfC, hfN, hfR⟩, ⟨hdC, hdN, hdR⟩, ⟨htC, htN, htR⟩,
    hsne, hstr, hstne, hsttr⟩ := hg
  have hq : ',' ∉ ('"' :: escapeQuotes r.filename ++ ['"']) := by
    intro hmem
    rcases List.mem_cons.mp hmem with h | h
    · exact absurd h (by decide)
    rcases List.mem_append.mp h with h | h
    · rcases mem_escapeQuotes h with h2 | h2
      · exact hfC h2
      · exact absurd h2 (by decide)
    · simp at h
  have hsplit : splitOnChar ',' (csvRow r)
      = [r.serial, '"' :: escapeQuotes r.filename ++ ['"'], r.extractedAt, r.status] := by
    rw [csvRow]
    have e : r.serial ++ [','] ++ ['"'] ++ escapeQuotes r.filename ++ ['"', ','] ++
        r.extractedAt ++ [','] ++ r.status
        = r.serial ++ ',' :: (('"' :: escapeQuotes r.filename ++ ['"'])
            ++ ',' :: (r.extractedAt ++ ',' :: r.status)) := by
      simp
    rw [e, splitOnChar_append hsC, splitOnChar_append hq, splitOnChar_append hdC,
      splitOnChar_of_not_mem htC]
  have hcomma : containsChar (csvRow r) ',' = true := by
    apply List.any_eq_true.mpr
    refine ⟨',', ?_, by simp⟩
    rw [csvRow]
    simp
  rw [parseLine, if_neg (by simp [hcomma]), hsplit]
  constructor
  · simp [hstr]
  · cases hst : r.status with
    | nil => exact absurd hst hstne
    | cons a as =>
      have : trimL (a :: as) = a :: as := hst ▸ hsttr
      simp [this]

theorem hasSerial_append_singleton (acc : Registry) (row : Row) (s : Str) :
    hasSerial (acc ++ [row]) s = (hasSerial acc s || (row.serial == s)) := by
  simp [hasSerial, List.any_append]

theorem importLines_cons (now l : Str) (R : Registry) (ls : List Str)
    (h : (parseLine now l).serial ≠ []) :
    importLines now R (l :: ls)
      = ((importLines now ((upsert R (parseLine now l).serial (parseLine now l).filename
            (parseLine now l).extractedAt (parseLine now l).status).1) ls).1,
         (importLines now ((upsert R (parseLine now l).serial (parseLine now l).filename
            (parseLine now l).extractedAt (parseLine now l).status).1) ls).2 + 1) := by
  simp [importLines, h]

theorem importLines_csvRows (now : Str) :
    ∀ (rows : List Row) (acc : Registry),
      (∀ r ∈ rows, GoodRow r) →
      (∀ r ∈ rows, hasSerial acc r.serial = false) →
      ((rows.map Row.serial).Nodup) →
      (importLines now acc (rows.map csvRow)).1.map serialStatus
        = acc.map serialStatus ++ rows.map serialStatus := by
  intro rows
  induction rows with
  | nil =>
    intro acc _ _ _
    simp [importLines]
  | cons r rows ih =>
    intro acc hg hns hnd
    have hgr : GoodRow r := hg r (List.mem_cons_self _ _)
    obtain ⟨hpser, hpst⟩ := parseLine_csvRow now hgr
    have hser_ne : (parseLine now (csvRow r)).serial ≠ [] := by
      rw [hpser]
      exact hgr.2.2.2.2.1
    have hhs : hasSerial acc (parseLine now (csvRow r)).serial = false := by
      rw [hpser]
      exact hns r (List.mem_cons_self _ _)
    rw [List.map_cons, importLines_cons now (csvRow r) acc (rows.map csvRow) hser_ne]
    rw [upsert, if_neg (by simp [hhs])]
    have hnd' : (rows.map Row.serial).Nodup := by
      rw [List.map_cons] at hnd
      exact hnd.of_cons
    have hhead : r.serial ∉ rows.map Row.serial := by
      rw [List.map_cons] at hnd
      exact (List.nodup_cons.mp hnd).1
    have hns' : ∀ q ∈ rows, hasSerial (acc ++
        [⟨(parseLine now (csvRow r)).serial, (parseLine now (csvRow r)).filename,
          (parseLine now (csvRow r)).extractedAt, (parseLine now (csvRow r)).status⟩])
        q.serial = false := by
      intro q hq
      rw [hasSerial_append_singleton]
      have h1 : hasSerial acc q.serial = false := hns q (List.mem_cons_of_mem _ hq)
      have h2 : ¬ r.serial = q.serial := by
        intro he
        exact hhead (he ▸ List.mem_map_of_mem Row.serial hq)
      simp [h1, hpser, h2]
    rw [ih _ (fun q hq => hg q (List.mem_cons_of_mem _ hq)) hns' hnd']
    simp [serialStatus, hpser, hpst]

/-- Claim C3 (corrected): the round-trip does hold for registries whose fields
are free of commas and line breaks and whose serial and status are non-empty
and trim-stable (the general claim fails on a comma inside a filename, see
`csv_roundtrip_comma_filename_cex`): exporting such a registry as CSV and
importing it into an empty registry reproduces the sequence of
(serial_number, status) pairs. -/
theorem csv_roundtrip_plain_fields (now : Str) (R : Registry)
    (hg : ∀ r ∈ R, GoodRow r) (hnd : (R.map Row.serial).Nodup) :
    ((importCSV now [] (exportCSV R)).1).map serialStatus = R.map serialStatus := by
  rw [importCSV]
  have hcl := csvLines_export hg
  rw [if_neg (by rw [hcl]; simp)]
  rw [dataLines_export hg]
  have h := importLines_csvRows now R [] hg (by intro r _; rfl) hnd
  simpa using h

/-- Witness for C3's amended theorem at a concrete one-row registry. -/
theorem csv_roundtrip_plain_fields_witness :
    (∀ r ∈ ([⟨"LB42836549R".data, "file1.png".data, "D0".data, "confirmed".data⟩] :
        Registry), GoodRow r) ∧
    ((([⟨"LB42836549R".data, "file1.png".data, "D0".data, "confirmed".data⟩] :
        Registry).map Row.serial).Nodup) ∧
    ((importCSV "T".data [] (exportCSV
        [⟨"LB42836549R".data, "file1.png".data, "D0".data, "confirmed".data⟩])).1).map
        serialStatus
      = ([⟨"LB42836549R".data, "file1.png".data, "D0".data, "confirmed".data⟩] :
          Registry).map serialStatus :=
  ⟨by decide, by decide,
   csv_roundtrip_plain_fields "T".data
     [⟨"LB42836549R".data, "file1.png".data, "D0".data, "confirmed".data⟩]
     (by decide) (by decide)⟩
